import Mathlib

/-!
Verification of the Ceres trace-analysis tools (`analyze_trace.py`, `analyze_traces.py`).

The Python sources are shallowly embedded below.  `analyze_trace.py` operates on traces whose
entries carry the fields `pc`, `instruction`, `cycles` at top level (the file indexes them
directly, e.g. `entry['pc']`); this well-formed schema is the typed model `EntryA`.
`analyze_traces.py` operates on loosely-shaped records (`entry.get(...)` / `'fields' in entry`
checks everywhere); those are modelled as raw JSON-like objects (`JObj`), an association list of
string keys to `JVal` values, with an entry being `Option JObj` (`none` when the record has no
`fields` key).  Machine integers in the traces are modelled as `Int`/`Nat` (no overflow occurs in
any of the analysed code paths), Python floats as `Rat` (exact arithmetic; the floating-point
claims are stated up to exact rational identity), and raising Python code as `Except PyError`.
-/

/-- A JSON scalar value as it appears in a trace file: an integer or a string. -/
inductive JVal : Type where
  | int (n : Int)
  | str (s : String)
deriving DecidableEq, Repr

/-- A JSON object: association list from keys to values.  Keys of a Python dict are unique, and
`List.lookup` returns the binding of the first matching key, so lookup agrees with dict access. -/
abbrev JObj : Type := List (String × JVal)

/-- Typed entry of an `analyze_trace.py` trace (spec section 3): the file accesses `entry['pc']`,
`entry['instruction']` and `entry['cycles']` directly, so these fields are required.  The
`registers` snapshot is consumed only by the display helpers `format_registers`/`print_entry`
(presentation, outside the analysis engines) and is omitted from the model. -/
structure EntryA : Type where
  pc : Nat
  instruction : String
  cycles : Nat
deriving DecidableEq, Repr

/-- Python slice `l[s:]` for an integer start index `s`: a negative start counts from the end of
the list, and the start is clamped to `[0, len(l)]`. -/
def pySliceFrom {α : Type} (l : List α) (s : Int) : List α :=
  l.drop (max (if s < 0 then s + l.length else s) 0).toNat

/-- Embedding of `show_last_n` (analyze_trace.py lines 70-77): `count = min(n, len(entries))`
followed by the slice `entries[-count:]`. -/
def show_last_n (entries : List EntryA) (n : Int) : List EntryA :=
  pySliceFrom entries (-(min n (entries.length : Int)))

/-- Python `s.upper()` as the character list of the result: character-wise upper-casing (the
mnemonic texts are ASCII, where Python's `str.upper` is exactly `Char.toUpper` per character). -/
def upperChars (s : String) : List Char :=
  s.data.map Char.toUpper

/-- Embedding of `find_instruction` (analyze_trace.py lines 80-87): keep, in order, the entries
whose full instruction text contains the search string, both sides upper-cased
(`mnemonic.upper() in e['instruction'].upper()`); Python string containment is contiguous
substring containment, i.e. `List.IsInfix` on the character lists. -/
def find_instruction (entries : List EntryA) (mnemonic : String) : List EntryA :=
  entries.filter (fun e => decide (upperChars mnemonic <:+: upperChars e.instruction))

/-- Fuel-indexed helper for `uniqueKeys`; structural recursion on the fuel keeps the function
computable by the kernel, and any fuel of at least `l.length` yields the same result. -/
def uniqueKeysF {α : Type} [DecidableEq α] : Nat → List α → List α
  | _, [] => []
  | 0, _ :: _ => []
  | fuel + 1, x :: xs => x :: uniqueKeysF fuel (xs.filter (fun y => decide ¬ (y = x)))

/-- Keys of a Python `Counter` built by inserting the elements of `l` in order: the distinct
values of `l` in order of first occurrence (dicts preserve insertion order). -/
def uniqueKeys {α : Type} [DecidableEq α] (l : List α) : List α :=
  uniqueKeysF l.length l

/-- The items of `Counter(l)` in insertion order: each distinct value of `l` (first-occurrence
order) paired with its number of occurrences in `l`. -/
def counterItems {α : Type} [DecidableEq α] (l : List α) : List (α × Nat) :=
  (uniqueKeys l).map (fun k => (k, l.count k))

/-- CPython's stable sort with `key` the count and `reverse=True` (also what
`Counter.most_common` runs): descending by count, ties keeping their original relative order.
`List.orderedInsert` places an element before the first element whose count is `≤` its own,
which is exactly the stable descending insertion. -/
def sortByCountDesc {α : Type} (l : List (α × Nat)) : List (α × Nat) :=
  @List.insertionSort _ (fun x y => y.2 ≤ x.2) (fun a b => Nat.decLe b.2 a.2) l

/-- Helper for `pyWords`: scan the characters, accumulating the current word reversed. -/
def pyWordsAux : List Char → List Char → List String
  | cur, [] => if cur.isEmpty then [] else [String.mk cur.reverse]
  | cur, c :: cs =>
    if c = ' ' then
      if cur.isEmpty then pyWordsAux [] cs
      else String.mk cur.reverse :: pyWordsAux [] cs
    else pyWordsAux (c :: cur) cs

/-- Python `s.split()` restricted to the space character: split on runs of spaces, discarding
empty pieces.  The trace instruction texts contain no other whitespace characters. -/
def pyWords (s : String) : List String :=
  pyWordsAux [] s.data

/-- Mnemonic extraction of analyze_trace.py line 106: `instruction.split()[0].split(',')[0]`,
i.e. the first whitespace-token of the instruction text, truncated at the first comma.  On text
with no token at all (empty/whitespace-only) the source raises IndexError; that degenerate case
sits outside the data model of spec section 3 (which requires a leading mnemonic token) and is
mapped to `""` here — `mnemonicOfInstr` below models the raising semantics faithfully. -/
def mnemonicA (instr : String) : String :=
  match pyWords instr with
  | [] => ""
  | t :: _ => String.mk (t.data.takeWhile (fun c => decide ¬ (c = ',')))

/-- The full (untruncated) frequency distribution of `show_histogram`: `Counter(ms)` rows sorted
by count descending, ties in first-occurrence order (CPython `most_common` semantics). -/
def histogramRows (ms : List String) : List (String × Nat) :=
  sortByCountDesc (counterItems ms)

/-- One displayed histogram row (analyze_trace.py line 117): `percentage = (count/total)*100`. -/
def percentRow (total : Nat) (p : String × Nat) : String × Nat × Rat :=
  (p.1, p.2, ((p.2 : Rat) / (total : Rat)) * 100)

/-- Embedding of `show_histogram` (analyze_trace.py lines 100-120): mnemonics of all entries are
counted, `counter.most_common(top_n)` truncates the sorted distribution to the first `top_n`
rows, and each displayed row carries `count/total*100` with `total = len(instructions)` the full
trace length (the distribution is computed before truncation). -/
def show_histogram (entries : List EntryA) (top_n : Nat) : List (String × Nat × Rat) :=
  ((histogramRows (entries.map (fun e => mnemonicA e.instruction))).take top_n).map
    (percentRow entries.length)

/-- One reported loop of `detect_loops` (analyze_trace.py lines 146-148): the window's PC
sequence, the occurrence count (`Iterations: len(positions)`), the printed start positions
(`positions[:5]`) and whether the `'...'` truncation marker was emitted (`len(positions) > 5`). -/
structure LoopInfo : Type where
  seq : List Nat
  iterations : Nat
  positions : List Nat
  truncated : Bool
deriving DecidableEq, Repr

/-- The window of PC values at start position `i`: `tuple(e['pc'] for e in entries[i:i+w])`
(analyze_trace.py line 136). -/
def windowSeq (entries : List EntryA) (w i : Nat) : List Nat :=
  ((entries.drop i).take w).map EntryA.pc

/-- The group of the start positions whose window produces the PC tuple `s`, i.e. the list
`sequences[s]` built by the loop at analyze_trace.py lines 135-139 (start positions are drawn
from `range(len(entries) - window_size)`). -/
def seqPositions (entries : List EntryA) (w : Nat) (s : List Nat) : List Nat :=
  (List.range (entries.length - w)).filter (fun i => decide (windowSeq entries w i = s))

/-- The loop report emitted for the PC tuple whose first start position is `i`
(analyze_trace.py lines 146-148). -/
def mkLoop (entries : List EntryA) (w i : Nat) : LoopInfo :=
  { seq := windowSeq entries w i
    iterations := (seqPositions entries w (windowSeq entries w i)).length
    positions := (seqPositions entries w (windowSeq entries w i)).take 5
    truncated := decide (5 < (seqPositions entries w (windowSeq entries w i)).length) }

/-- Embedding of `detect_loops` (analyze_trace.py lines 123-152).  The source fixes
`window_size = 5` as a local constant (line 132) and guards with `len(entries) < 10` (line 126,
which equals `2 * window_size` at that binding); the spec (section 4.4a) exposes `window_size`
as a parameter with guard `len(entries) < 2 * window_size`, and the embedding follows that
parameterisation — at the source's binding `window_size = 5` the two coincide exactly.
The `sequences` dict maps each window tuple to its list of start positions and is iterated in
insertion order (= order of each tuple's first start position); this is rendered by keeping
exactly the start positions that are the first occurrence of their tuple and whose group is
large enough, and emitting the corresponding report. -/
def detect_loops (entries : List EntryA) (min_iterations window_size : Nat) : List LoopInfo :=
  if entries.length < 2 * window_size then []
  else
    ((List.range (entries.length - window_size)).filter (fun i =>
        decide ((seqPositions entries window_size (windowSeq entries window_size i)).head? =
          some i) &&
        decide (min_iterations ≤
          (seqPositions entries window_size (windowSeq entries window_size i)).length))).map
      (mkLoop entries window_size)

/-- Errors raised by the Python code paths that are modelled. -/
inductive PyError : Type where
  | keyErr (k : String)
  | attributeErr
  | indexErr
  | zeroDivisionErr
deriving DecidableEq, Repr

/-- Trace metadata (spec section 3): capture timestamp, declared entry count, buffer capacity. -/
structure Metadata : Type where
  timestamp : Int
  entry_count : Nat
  buffer_capacity : Nat
deriving DecidableEq, Repr

/-- Buffer-usage computation of `show_metadata` (analyze_trace.py line 164):
`meta['entry_count'] / meta['buffer_capacity'] * 100`; Python raises ZeroDivisionError when
`buffer_capacity` is 0 (there is no guard in the source). -/
def show_metadata_buffer_usage (meta : Metadata) : Except PyError Rat :=
  if meta.buffer_capacity = 0 then Except.error PyError.zeroDivisionErr
  else Except.ok (((meta.entry_count : Rat) / (meta.buffer_capacity : Rat)) * 100)

/-- Raising variant of mnemonic extraction (analyze_trace.py line 106): `split()[0]` raises
IndexError when the text has no token. -/
def mnemonicOfInstr (instr : String) : Except PyError String :=
  match pyWords instr with
  | [] => Except.error PyError.indexErr
  | t :: _ => Except.ok (String.mk (t.data.takeWhile (fun c => decide ¬ (c = ','))))

/-- The mnemonic-collection loop of `show_histogram` (analyze_trace.py lines 103-107) over raw
JSON records, with Python's raising semantics: `entry['instruction']` raises KeyError when the
key is absent, `.split()` raises AttributeError on a non-string value, and `[0]` raises
IndexError on tokenless text; the loop aborts at the first raising entry. -/
def collectMnemonics : List JObj → Except PyError (List String)
  | [] => Except.ok []
  | f :: fs =>
    match f.lookup "instruction" with
    | none => Except.error (PyError.keyErr "instruction")
    | some (JVal.int _) => Except.error PyError.attributeErr
    | some (JVal.str s) =>
      match mnemonicOfInstr s with
      | Except.error e => Except.error e
      | Except.ok m =>
        match collectMnemonics fs with
        | Except.error e => Except.error e
        | Except.ok ms => Except.ok (m :: ms)

/-- `show_histogram` (analyze_trace.py lines 100-120) over raw JSON records: the same
computation as `show_histogram`, but with the source's unguarded `entry['instruction']` access,
so a single record missing the field (or holding a non-string, or tokenless text) makes the
whole query raise. -/
def show_histogram_raw (l : List JObj) (top_n : Nat) : Except PyError (List (String × Nat × Rat)) :=
  match collectMnemonics l with
  | Except.error e => Except.error e
  | Except.ok ms => Except.ok (((histogramRows ms).take top_n).map (percentRow ms.length))

/-- Entry of an `analyze_traces.py` trace: the scripts only ever reach an entry's data through
`entry['fields']` after an `'fields' in entry` membership test, so an entry is modelled as the
optional value of its `fields` key (`none` when the record has no such key). -/
abbrev EntryB : Type := Option JObj

/-- The `'fields' in entry and 'pc' in entry['fields']` access pattern used throughout
analyze_traces.py: the entry's `pc` value when both keys are present. -/
def entryPC (e : EntryB) : Option JVal :=
  e.bind (fun f => f.lookup "pc")

/-- Embedding of `find_address_range`'s `matching` construction (analyze_traces.py lines 43-52):
keep, in order, the entries whose `fields.pc` is present, is an integer
(`isinstance(pc, int)`), and satisfies `start_addr <= pc <= end_addr`. -/
def find_address_range (entries : List EntryB) (start_addr end_addr : Int) : List EntryB :=
  entries.filter (fun e =>
    match entryPC e with
    | some (JVal.int pc) => decide (start_addr ≤ pc ∧ pc ≤ end_addr)
    | some (JVal.str _) => false
    | none => false)

/-- The PC stream that `find_loops` counts (analyze_traces.py lines 70-74): the `pc` values of
the entries that have `fields` and a `pc` key, in order; no integer check here, unlike
`find_address_range`. -/
def pcList (entries : List EntryB) : List JVal :=
  entries.filterMap entryPC

/-- The representative-label lookup of `find_loops` (analyze_traces.py lines 83-87): the
`instruction` text of the first entry whose `fields.pc` equals `pc`, with `'Unknown'` both when
no such entry exists and when that entry has no `instruction` key. -/
def firstInstructionAt (entries : List EntryB) (pc : JVal) : JVal :=
  match entries.find? (fun e => decide (entryPC e = some pc)) with
  | some (some f) => (f.lookup "instruction").getD (JVal.str "Unknown")
  | some none => JVal.str "Unknown"
  | none => JVal.str "Unknown"

/-- Embedding of `find_loops` (analyze_traces.py lines 65-89): count every PC occurrence, keep
the `(pc, count)` items with `count >= min_repeats` (in `Counter` insertion order), sort stably
by count descending, and report the first 10 rows (`loops[:10]`, line 81), each labelled with
the instruction text of the PC's first occurrence. -/
def find_loops (entries : List EntryB) (min_repeats : Nat) : List (JVal × Nat × JVal) :=
  ((sortByCountDesc ((counterItems (pcList entries)).filter
      (fun p => decide (min_repeats ≤ p.2)))).take 10).map
    (fun p => (p.1, p.2, firstInstructionAt entries p.1))

/-- Embedding of `analyze_register_changes` (analyze_traces.py lines 92-111): for each entry
that has `fields` containing the requested register key, emit
`(fields.get('pc', 0), fields[reg], fields.get('instruction', 'Unknown'))`; every other entry is
skipped. -/
def analyze_register_changes (entries : List EntryB) (reg : String) : List (JVal × JVal × JVal) :=
  match entries with
  | [] => []
  | e :: es =>
    match e with
    | none => analyze_register_changes es reg
    | some f =>
      match f.lookup reg with
      | none => analyze_register_changes es reg
      | some v =>
        ((f.lookup "pc").getD (JVal.int 0), v,
          (f.lookup "instruction").getD (JVal.str "Unknown")) :: analyze_register_changes es reg

/-- The admissible register names: the `choices` list of the `--register` option
(analyze_traces.py line 123). -/
def registerChoices : List String := ["a", "f", "b", "c", "d", "e", "h", "l"]

/-- The error surfaced when an unsupported register name is requested (spec section 7 calls it
`InvalidRegister`; in the source it is argparse's invalid-choice usage error, raised before any
analysis runs). -/
inductive AnalyzeError : Type where
  | invalidRegister
deriving DecidableEq, Repr

/-- The Register Change Tracker as invocable in the repository: the `--register` pathway of
analyze_traces.py.  argparse's `choices` list (line 123) rejects any name outside
`{a,f,b,c,d,e,h,l}` before `analyze_register_changes` (lines 92-111) runs, so an unsupported
name fails up front with no partial result. -/
def register_changes (entries : List EntryB) (reg : String) :
    Except AnalyzeError (List (JVal × JVal × JVal)) :=
  if reg ∈ registerChoices then Except.ok (analyze_register_changes entries reg)
  else Except.error AnalyzeError.invalidRegister

/-! Concrete traces used by the claim theorems, their witnesses and counterexamples. -/

/-- Scenario trace of spec section 8: `[(0x100,"LD A,B"), (0x102,"JP 0100"), (0x100,"LD A,B"),
(0x102,"JP 0100"), (0x100,"LD A,B")]`. -/
def exC4 : List EntryA :=
  [⟨0x100, "LD A,B", 4⟩, ⟨0x102, "JP 0100", 16⟩, ⟨0x100, "LD A,B", 4⟩,
   ⟨0x102, "JP 0100", 16⟩, ⟨0x100, "LD A,B", 4⟩]

/-- A 10-entry trace whose PC stream is `1,2,3,4,5,1,2,3,4,5`: the 5-window `(1,2,3,4,5)`
occurs at start positions 0 and 5, but position 5 is the one `range(len(entries) - window_size)`
does not produce. -/
def exC1a : List EntryA :=
  [⟨1, "NOP", 4⟩, ⟨2, "NOP", 4⟩, ⟨3, "NOP", 4⟩, ⟨4, "NOP", 4⟩, ⟨5, "NOP", 4⟩,
   ⟨1, "NOP", 4⟩, ⟨2, "NOP", 4⟩, ⟨3, "NOP", 4⟩, ⟨4, "NOP", 4⟩, ⟨5, "NOP", 4⟩]

/-- A 6-entry trace: long enough for one 5-window, but shorter than the `len(entries) < 10`
guard of `detect_loops`. -/
def exC1b : List EntryA :=
  [⟨1, "NOP", 4⟩, ⟨2, "NOP", 4⟩, ⟨3, "NOP", 4⟩, ⟨4, "NOP", 4⟩, ⟨5, "NOP", 4⟩, ⟨6, "NOP", 4⟩]

/-- A single-entry trace, for the `last_n` counterexample. -/
def exC2 : List EntryA := [⟨0x100, "LD A,B", 4⟩]

/-- A four-entry trace, input of the `last_n` witness. -/
def exW2 : List EntryA :=
  [⟨1, "NOP", 4⟩, ⟨2, "INC A", 4⟩, ⟨3, "DEC A", 4⟩, ⟨4, "HALT", 4⟩]

/-- Eleven entries with eleven distinct PCs, for the `find_loops` truncation counterexample. -/
def exC3 : List EntryB := (List.range 11).map (fun i => some [("pc", JVal.int (i + 1))])

/-- A small analyze_traces trace: PC 7 runs twice, PC 9 once. -/
def exW3 : List EntryB :=
  [some [("pc", JVal.int 7), ("instruction", JVal.str "JR -2")],
   some [("pc", JVal.int 9), ("instruction", JVal.str "NOP")],
   some [("pc", JVal.int 7), ("instruction", JVal.str "JR -2")]]

/-- A trace whose only entry exposes a field named `z`, input of the invalid-register witness. -/
def exW5 : List EntryB := [some [("z", JVal.int 1), ("pc", JVal.int 2)]]

/-- Entries for the case-insensitive search witness. -/
def exW9 : List EntryA := [⟨0x150, "JP 0150", 16⟩, ⟨0x152, "LD A,B", 4⟩]

/-- Entries for the address-range witness: one in-range entry, one whose `pc` is a string, one
without `fields`. -/
def exW10 : List EntryB :=
  [some [("pc", JVal.int 0x155), ("instruction", JVal.str "NOP")],
   some [("pc", JVal.str "oops")], none]

/-- Two-mnemonic trace for the histogram witness. -/
def exW8 : List EntryA := [⟨1, "LD A,B", 4⟩, ⟨2, "JP 0100", 16⟩, ⟨3, "LD C,D", 4⟩]

/-! Helper lemmas. -/

theorem uniqueKeysF_fuel_irrel {α : Type} [DecidableEq α] (f1 f2 : Nat) (l : List α)
    (h1 : l.length ≤ f1) (h2 : l.length ≤ f2) : uniqueKeysF f1 l = uniqueKeysF f2 l := by
  induction f1 generalizing f2 l with
  | zero =>
    have hl : l = [] := List.length_eq_zero.1 (Nat.le_zero.1 h1)
    subst hl
    cases f2 <;> rfl
  | succ n ih =>
    cases l with
    | nil => cases f2 <;> rfl
    | cons x xs =>
      cases f2 with
      | zero => simp at h2
      | succ m =>
        rw [uniqueKeysF, uniqueKeysF]
        congr 1
        have hx1 : xs.length ≤ n := by
          simp only [List.length_cons] at h1
          omega
        have hx2 : xs.length ≤ m := by
          simp only [List.length_cons] at h2
          omega
        exact ih _ _ (le_trans (List.length_filter_le _ _) hx1)
          (le_trans (List.length_filter_le _ _) hx2)

theorem uniqueKeys_nil {α : Type} [DecidableEq α] : uniqueKeys ([] : List α) = [] := rfl

theorem uniqueKeys_cons {α : Type} [DecidableEq α] (x : α) (xs : List α) :
    uniqueKeys (x :: xs) = x :: uniqueKeys (xs.filter (fun y => decide ¬ (y = x))) := by
  unfold uniqueKeys
  rw [List.length_cons, uniqueKeysF]
  congr 1
  exact uniqueKeysF_fuel_irrel _ _ _ (List.length_filter_le _ _) le_rfl

theorem mem_uniqueKeys {α : Type} [DecidableEq α] : ∀ (l : List α) (a : α),
    a ∈ uniqueKeys l ↔ a ∈ l
  | [], a => by rw [uniqueKeys_nil]
  | x :: xs, a => by
    have ih := mem_uniqueKeys (xs.filter (fun y => decide ¬ (y = x))) a
    rw [uniqueKeys_cons]
    simp only [List.mem_cons, ih, List.mem_filter, decide_eq_true_iff]
    constructor
    · rintro (rfl | ⟨h, _⟩)
      · exact Or.inl rfl
      · exact Or.inr h
    · rintro (rfl | h)
      · exact Or.inl rfl
      · by_cases hx : a = x
        · exact Or.inl hx
        · exact Or.inr ⟨h, hx⟩
termination_by l _ => l.length
decreasing_by
  simp only [List.length_cons]
  exact Nat.lt_succ_of_le (List.length_filter_le _ _)

theorem count_add_filter_length {α : Type} [DecidableEq α] (x : α) (xs : List α) :
    xs.count x + (xs.filter (fun y => decide ¬ (y = x))).length = xs.length := by
  induction xs with
  | nil => rfl
  | cons y ys ih =>
    by_cases h : y = x
    · subst h
      rw [List.count_cons_self, List.filter_cons_of_neg (by simp), List.length_cons]
      omega
    · rw [List.count_cons_of_ne (fun hxy => h hxy.symm)]
      simp only [List.filter_cons]
      rw [if_pos (by simp [h])]
      simp only [List.length_cons]
      omega

theorem sum_counterItems {α : Type} [DecidableEq α] : ∀ (l : List α),
    ((counterItems l).map Prod.snd).sum = l.length
  | [] => by rw [counterItems, uniqueKeys_nil]; rfl
  | x :: xs => by
    have ih := sum_counterItems (xs.filter (fun y => decide ¬ (y = x)))
    rw [counterItems, uniqueKeys_cons]
    rw [List.map_cons, List.map_cons, List.sum_cons]
    have hmap : (uniqueKeys (xs.filter (fun y => decide ¬ (y = x)))).map
        (fun k => (k, (x :: xs).count k)) =
        (uniqueKeys (xs.filter (fun y => decide ¬ (y = x)))).map
        (fun k => (k, (xs.filter (fun y => decide ¬ (y = x))).count k)) := by
      apply List.map_congr_left
      intro k hk
      have hk' : k ∈ xs.filter (fun y => decide ¬ (y = x)) := (mem_uniqueKeys _ _).1 hk
      have hkx : k ≠ x := by
        have := (List.mem_filter.1 hk').2
        exact decide_eq_true_iff.1 this
      have hcf := @List.count_filter _ _ _ (fun y => decide ¬ (y = x)) k xs (decide_eq_true hkx)
      rw [List.count_cons_of_ne hkx]
      exact congrArg (fun c => (k, c)) hcf.symm
    rw [hmap]
    have hc := count_add_filter_length x xs
    rw [counterItems] at ih
    rw [List.count_cons_self, List.length_cons]
    omega
termination_by l => l.length
decreasing_by
  simp only [List.length_cons]
  exact Nat.lt_succ_of_le (List.length_filter_le _ _)

theorem mem_counterItems {α : Type} [DecidableEq α] {l : List α} {p : α × Nat}
    (h : p ∈ counterItems l) : p.2 = l.count p.1 := by
  rw [counterItems, List.mem_map] at h
  obtain ⟨k, _, rfl⟩ := h
  rfl

theorem sortByCountDesc_perm {α : Type} (l : List (α × Nat)) : (sortByCountDesc l).Perm l :=
  List.perm_insertionSort _ l

theorem sortByCountDesc_sorted {α : Type} (l : List (α × Nat)) :
    List.Pairwise (fun x y : α × Nat => y.2 ≤ x.2) (sortByCountDesc l) := by
  haveI h1 : IsTotal (α × Nat) (fun x y => y.2 ≤ x.2) := ⟨fun a b => Nat.le_total b.2 a.2⟩
  haveI h2 : IsTrans (α × Nat) (fun x y => y.2 ≤ x.2) := ⟨fun a b c hab hbc => Nat.le_trans hbc hab⟩
  exact List.sorted_insertionSort _ l

theorem sum_map_cast_mul (S : List Nat) (r : Rat) :
    (S.map (fun c : Nat => (c : Rat) * r)).sum = (S.sum : Rat) * r := by
  induction S with
  | nil => simp
  | cons a t ih =>
    simp only [List.map_cons, List.sum_cons, ih]
    push_cast
    ring

/-- When the mnemonic-collection loop completes without raising, every record had an
`instruction` field. -/
theorem collectMnemonics_ok_instr : ∀ {l : List JObj} {ms : List String},
    collectMnemonics l = Except.ok ms → ∀ f ∈ l, (f.lookup "instruction").isSome = true := by
  intro l
  induction l with
  | nil => intro ms _ f hf; cases hf
  | cons g gs ih =>
    intro ms h f hf
    rw [collectMnemonics] at h
    rcases hg : g.lookup "instruction" with _ | v
    · rw [hg] at h; cases h
    · cases v with
      | int n => rw [hg] at h; cases h
      | str str0 =>
        rw [hg] at h
        dsimp only at h
        rcases List.mem_cons.1 hf with rfl | hf2
        · rw [hg]; rfl
        · rcases hm : mnemonicOfInstr str0 with e | m
          · rw [hm] at h; cases h
          · rw [hm] at h
            dsimp only at h
            rcases hc : collectMnemonics gs with e | ms0
            · rw [hc] at h; cases h
            · exact ih hc f hf2

/-! Claim theorems. -/

/-- C2, counterexample: on a one-entry trace, `show_last_n` with `n = 0` returns the whole
trace (Python's `entries[-0:]` is `entries[0:]`), so its length is 1 while the claim demands
`min(max(0,0), 1) = 0` entries. -/
theorem show_last_n_zero_cex :
    show_last_n exC2 0 = exC2 ∧ (show_last_n exC2 0).length = 1 ∧
    min (max (0 : Int) 0) (exC2.length : Int) = 0 := by decide

/-- C2 (amended): for `n >= 1`, `show_last_n` returns the final `min(n, len(entries))` entries
in original order, and its length is `min(n, len(entries))`; for `n <= 0` it instead returns
`entries[-n:]` — the whole trace when `n = 0`, and all but the first `|n|` entries when
`n < 0`. -/
theorem show_last_n_correct (entries : List EntryA) (n : Int) :
    (1 ≤ n →
      show_last_n entries n = entries.drop (entries.length - n.toNat) ∧
      (show_last_n entries n).length = min n.toNat entries.length) ∧
    (n ≤ 0 → show_last_n entries n = entries.drop (-n).toNat) := by
  constructor
  · intro hn
    have h1 : show_last_n entries n = entries.drop (entries.length - n.toNat) := by
      unfold show_last_n pySliceFrom
      congr 1
      split_ifs with h <;> omega
    refine ⟨h1, ?_⟩
    rw [h1, List.length_drop]
    omega
  · intro hn
    unfold show_last_n pySliceFrom
    congr 1
    split_ifs with h <;> omega

/-- C2, witness of `show_last_n_correct` at concrete inputs: `n = 2` on a four-entry trace and
`n = -1` on the same trace. -/
theorem show_last_n_correct_witness :
    (show_last_n exW2 2 = exW2.drop (exW2.length - (2 : Int).toNat) ∧
      (show_last_n exW2 2).length = min (2 : Int).toNat exW2.length) ∧
    show_last_n exW2 (-1) = exW2.drop (-(-1 : Int)).toNat :=
  ⟨(show_last_n_correct exW2 2).1 (by decide), (show_last_n_correct exW2 (-1)).2 (by decide)⟩

/-- C4, counterexample: the source binds `window_size = 5` (local constant, line 132) and
guards with the literal `len(entries) < 10` (line 126) — `detect_loops entries mi 5` is exactly
that code, the guard `2 * 5` coinciding with the literal 10.  The 5-entry scenario trace is
shorter than the guard, so the program's windowed detection reports nothing on it: the claimed
detection of `(0x100, 0x102)` does not happen in the program, whatever window size the caller
wants (the source offers no way to request `window_size = 2`, and even rebinding the constant
to 2 would leave the literal guard 10 skipping this trace). -/
theorem detect_loops_scenario_cex :
    detect_loops exC4 2 5 = [] ∧ exC4.length < 10 := by decide

/-- C4 (amended): the program's own windowed detection (window size fixed at 5, guard
`len(entries) < 10`) reports nothing on the spec's scenario trace, which is shorter than the
guard; under the spec's parameterisation of the same algorithm (section 4.4a: `window_size` a
parameter, guard `len(entries) < 2 * window_size`), `window_size = 2` and `min_iterations = 2`
report exactly the PC tuple `(0x100, 0x102)` with 2 occurrences at start positions `[0, 2]` (no
truncation), and any trace shorter than `2 * window_size` gives an empty result rather than an
error. -/
theorem detect_loops_scenario :
    detect_loops exC4 2 2 =
      [{ seq := [0x100, 0x102], iterations := 2, positions := [0, 2], truncated := false }] ∧
    ∀ (es : List EntryA) (mi w : Nat), es.length < 2 * w → detect_loops es mi w = [] := by
  constructor
  · decide
  · intro es mi w h
    simp [detect_loops, h]

/-- C4, witness of the short-trace clause of `detect_loops_scenario` at a concrete input. -/
theorem detect_loops_scenario_witness : detect_loops ([] : List EntryA) 3 5 = [] :=
  detect_loops_scenario.2 [] 3 5 (by decide)

/-- C5: requesting any register name outside `{a,f,b,c,d,e,h,l}` fails immediately with the
invalid-register error and produces no result. -/
theorem register_changes_invalid (entries : List EntryB) (reg : String)
    (h : ¬ reg ∈ registerChoices) :
    register_changes entries reg = Except.error AnalyzeError.invalidRegister := by
  simp [register_changes, h]

/-- C5, witness: `register_changes(trace, "z")` fails with the invalid-register error, even on a
trace whose entries expose a `z` field. -/
theorem register_changes_invalid_witness :
    register_changes exW5 "z" = Except.error AnalyzeError.invalidRegister :=
  register_changes_invalid exW5 "z" (by decide)

/-- C6: on metadata with `buffer_capacity = 0` the buffer-usage computation of `show_metadata`
raises ZeroDivisionError (there is no N/A guard in the source); with a non-zero capacity it
yields `entry_count / buffer_capacity * 100`, e.g. 50% for 500 of 1000. -/
theorem buffer_usage_zero_capacity :
    show_metadata_buffer_usage ⟨1700000000, 0, 0⟩ = Except.error PyError.zeroDivisionErr ∧
    show_metadata_buffer_usage ⟨1700000000, 7, 0⟩ = Except.error PyError.zeroDivisionErr ∧
    show_metadata_buffer_usage ⟨1700000000, 500, 1000⟩ = Except.ok 50 := by
  refine ⟨rfl, rfl, ?_⟩
  simp [show_metadata_buffer_usage]
  norm_num

/-- C9: `find_instruction` preserves the original entry order (its result is a sublist of the
entries), keeps exactly the entries whose full upper-cased instruction text contains the
upper-cased search string as a substring, and any two search strings with the same upper-casing
(in particular two spellings differing only in letter case) produce identical results. -/
theorem find_instruction_correct (entries : List EntryA) (needle1 needle2 : String) :
    List.Sublist (find_instruction entries needle1) entries ∧
    (∀ e, e ∈ find_instruction entries needle1 ↔
      e ∈ entries ∧ upperChars needle1 <:+: upperChars e.instruction) ∧
    (upperChars needle1 = upperChars needle2 →
      find_instruction entries needle1 = find_instruction entries needle2) := by
  refine ⟨List.filter_sublist _, fun e => ?_, fun h => ?_⟩
  · rw [find_instruction, List.mem_filter, decide_eq_true_iff]
  · unfold find_instruction
    rw [h]

/-- C9, witness: searching `"jp"` and `"JP"` over a trace yields identical results, and the
lower-case needle `"jp"` matches the entry with full text `"JP 0150"` (a substring match against
the operand-carrying text, not only the mnemonic token). -/
theorem find_instruction_correct_witness :
    find_instruction exW9 "jp" = find_instruction exW9 "JP" ∧
    (⟨0x150, "JP 0150", 16⟩ : EntryA) ∈ find_instruction exW9 "jp" :=
  ⟨(find_instruction_correct exW9 "jp" "JP").2.2 (by decide),
   ((find_instruction_correct exW9 "jp" "JP").2.1 _).2 ⟨by decide, by decide⟩⟩

/-- C10: the address-range query returns a sublist of the entries (original order), and an entry
is kept exactly when its `fields.pc` is present, holds an integer, and lies in
`[start_addr, end_addr]`; entries with an absent or non-integer `pc` are excluded without
error. -/
theorem find_address_range_correct (entries : List EntryB) (s e : Int) :
    List.Sublist (find_address_range entries s e) entries ∧
    ∀ entry, entry ∈ find_address_range entries s e ↔
      entry ∈ entries ∧ ∃ pc : Int, entryPC entry = some (JVal.int pc) ∧ s ≤ pc ∧ pc ≤ e := by
  refine ⟨List.filter_sublist _, fun entry => ?_⟩
  rw [find_address_range, List.mem_filter]
  constructor
  · rintro ⟨hmem, hcond⟩
    refine ⟨hmem, ?_⟩
    rcases hpc : entryPC entry with _ | v
    · rw [hpc] at hcond
      cases hcond
    · cases v with
      | int pc =>
        rw [hpc] at hcond
        rw [decide_eq_true_iff] at hcond
        exact ⟨pc, rfl, hcond.1, hcond.2⟩
      | str s' =>
        rw [hpc] at hcond
        cases hcond
  · rintro ⟨hmem, pc, hpc, h1, h2⟩
    refine ⟨hmem, ?_⟩
    rw [hpc]
    exact decide_eq_true ⟨h1, h2⟩

/-- C10, witness: in the range `[0x150, 0x160]` the entry at PC 0x155 is returned, while the
entry whose `pc` holds a string is excluded. -/
theorem find_address_range_correct_witness :
    (some [("pc", JVal.int 0x155), ("instruction", JVal.str "NOP")] : EntryB) ∈
      find_address_range exW10 0x150 0x160 ∧
    ¬ (some [("pc", JVal.str "oops")] : EntryB) ∈ find_address_range exW10 0x150 0x160 :=
  ⟨((find_address_range_correct exW10 0x150 0x160).2 _).2
      ⟨by decide, 0x155, by decide, by decide, by decide⟩,
   fun h => by
    obtain ⟨-, pc, hpc, -, -⟩ := ((find_address_range_correct exW10 0x150 0x160).2 _).1 h
    cases hpc⟩

/-- C1, counterexample to the claimed inclusive window range: (i) on the 10-entry trace with PC
stream `1..5,1..5` the tuple `(1,2,3,4,5)` occurs at the claim's start positions 0 and 5
(positions 0 to `len - window_size` inclusive), meeting `min_iterations = 2`, yet `detect_loops`
reports nothing, because `range(len(entries) - window_size)` omits the final start position;
(ii) on a 6-entry trace one window exists at position 0 (meeting `min_iterations = 1`), yet the
`len(entries) < 10` guard makes the detector return empty. -/
theorem detect_loops_window_bound_cex :
    (detect_loops exC1a 2 5 = [] ∧
      2 ≤ ((List.range (exC1a.length - 5 + 1)).filter
        (fun i => decide (windowSeq exC1a 5 i = windowSeq exC1a 5 0))).length) ∧
    (detect_loops exC1b 1 5 = [] ∧
      1 ≤ ((List.range (exC1b.length - 5 + 1)).filter
        (fun i => decide (windowSeq exC1b 5 i = windowSeq exC1b 5 0))).length) := by decide

/-- C1 (amended): when `2 * window_size <= len(entries)` (otherwise the detector returns empty),
`detect_loops` slides the window over start positions 0 to `len(entries) - window_size - 1`
(exclusive upper bound, as `range(len(entries) - window_size)` produces) and groups those start
positions by their PC tuple; every reported loop carries a group of size at least
`min_iterations`, its occurrence count is exactly the size of its tuple's group, its printed
positions are the first 5 members of the group, and the truncation marker appears exactly when
the group has more than 5 members; conversely, every PC tuple whose group reaches
`min_iterations` is reported. -/
theorem detect_loops_correct (entries : List EntryA) (mi w : Nat) :
    (∀ l ∈ detect_loops entries mi w,
        mi ≤ l.iterations ∧
        l.iterations = (seqPositions entries w l.seq).length ∧
        l.positions = (seqPositions entries w l.seq).take 5 ∧
        (l.truncated = true ↔ 5 < (seqPositions entries w l.seq).length)) ∧
    (2 * w ≤ entries.length →
      ∀ i, i < entries.length - w →
        mi ≤ (seqPositions entries w (windowSeq entries w i)).length →
        ∃ l ∈ detect_loops entries mi w, l.seq = windowSeq entries w i ∧
          l.iterations = (seqPositions entries w (windowSeq entries w i)).length) := by
  constructor
  · intro l hl
    unfold detect_loops at hl
    split at hl
    · cases hl
    · rw [List.mem_map] at hl
      obtain ⟨i, hi, rfl⟩ := hl
      rw [List.mem_filter, Bool.and_eq_true, decide_eq_true_iff, decide_eq_true_iff] at hi
      obtain ⟨-, -, hcount⟩ := hi
      exact ⟨hcount, rfl, rfl, by rw [mkLoop]; exact decide_eq_true_iff⟩
  · intro hlen i hi hmi
    have hig : i ∈ seqPositions entries w (windowSeq entries w i) := by
      rw [seqPositions, List.mem_filter]
      exact ⟨List.mem_range.2 hi, decide_eq_true rfl⟩
    obtain ⟨j, hj⟩ : ∃ j, (seqPositions entries w (windowSeq entries w i)).head? = some j := by
      cases hsp : seqPositions entries w (windowSeq entries w i) with
      | nil => rw [hsp] at hig; cases hig
      | cons a t => exact ⟨a, rfl⟩
    have hjmem : j ∈ seqPositions entries w (windowSeq entries w i) :=
      List.mem_of_mem_head? (by rw [hj]; rfl)
    rw [seqPositions, List.mem_filter, decide_eq_true_iff] at hjmem
    obtain ⟨hjrange, hjseq⟩ := hjmem
    have hseq_eq : seqPositions entries w (windowSeq entries w j) =
        seqPositions entries w (windowSeq entries w i) := by rw [hjseq]
    refine ⟨mkLoop entries w j, ?_, ?_, ?_⟩
    · unfold detect_loops
      rw [if_neg (by omega)]
      rw [List.mem_map]
      refine ⟨j, ?_, rfl⟩
      rw [List.mem_filter, Bool.and_eq_true]
      refine ⟨hjrange, decide_eq_true ?_, decide_eq_true ?_⟩
      · rw [hseq_eq]
        exact hj
      · rw [hseq_eq]
        exact hmi
    · rw [mkLoop]
      exact hjseq
    · rw [mkLoop]
      simp only
      rw [hseq_eq]

/-- C1, witness of `detect_loops_correct` at a concrete input: on the scenario trace with
`window_size = 2`, the tuple of start position 0 (group `{0, 2}`, size 2) is reported. -/
theorem detect_loops_correct_witness :
    ∃ l ∈ detect_loops exC4 2 2, l.seq = windowSeq exC4 2 0 ∧
      l.iterations = (seqPositions exC4 2 (windowSeq exC4 2 0)).length :=
  (detect_loops_correct exC4 2 2).2 (by decide) 0 (by decide) (by decide)

/-- C3, counterexample to "reports exactly those distinct PC values": with `min_repeats = 1`,
eleven distinct PCs qualify, but `loops[:10]` reports only the first ten, so the qualifying
PC 11 (count 1) is absent from the report. -/
theorem find_loops_truncation_cex :
    find_loops exC3 1 =
      [(JVal.int 1, 1, JVal.str "Unknown"), (JVal.int 2, 1, JVal.str "Unknown"),
       (JVal.int 3, 1, JVal.str "Unknown"), (JVal.int 4, 1, JVal.str "Unknown"),
       (JVal.int 5, 1, JVal.str "Unknown"), (JVal.int 6, 1, JVal.str "Unknown"),
       (JVal.int 7, 1, JVal.str "Unknown"), (JVal.int 8, 1, JVal.str "Unknown"),
       (JVal.int 9, 1, JVal.str "Unknown"), (JVal.int 10, 1, JVal.str "Unknown")] ∧
    1 ≤ (pcList exC3).count (JVal.int 11) ∧
    ¬ (JVal.int 11, 1, JVal.str "Unknown") ∈ find_loops exC3 1 := by decide

/-- C3 (amended): every reported row carries a PC together with its exact raw occurrence count
over the trace (which meets `min_repeats`) and the instruction text of the PC's first
occurrence; the report is sorted by count descending (the stable sort makes the tie order
deterministic — ties keep first-occurrence order); and whenever at most 10 PCs qualify, every
qualifying PC is reported (`loops[:10]` truncates the report to the first 10 rows of the sort
order). -/
theorem find_loops_correct (entries : List EntryB) (mr : Nat) :
    (∀ r ∈ find_loops entries mr,
        r.2.1 = (pcList entries).count r.1 ∧ mr ≤ r.2.1 ∧
        r.2.2 = firstInstructionAt entries r.1) ∧
    List.Pairwise (fun x y : JVal × Nat × JVal => y.2.1 ≤ x.2.1) (find_loops entries mr) ∧
    (((counterItems (pcList entries)).filter (fun p => decide (mr ≤ p.2))).length ≤ 10 →
      ∀ p ∈ (counterItems (pcList entries)).filter (fun p => decide (mr ≤ p.2)),
        ∃ r ∈ find_loops entries mr, r.1 = p.1 ∧ r.2.1 = p.2) := by
  refine ⟨?_, ?_, ?_⟩
  · intro r hr
    rw [find_loops, List.mem_map] at hr
    obtain ⟨p, hp, rfl⟩ := hr
    have hpS : p ∈ sortByCountDesc ((counterItems (pcList entries)).filter
        (fun p => decide (mr ≤ p.2))) := List.mem_of_mem_take hp
    have hpQ := (sortByCountDesc_perm _).mem_iff.1 hpS
    rw [List.mem_filter, decide_eq_true_iff] at hpQ
    exact ⟨mem_counterItems hpQ.1, hpQ.2, rfl⟩
  · rw [find_loops]
    rw [List.pairwise_map]
    exact (sortByCountDesc_sorted _).sublist (List.take_sublist _ _)
  · intro hlen p hp
    rw [find_loops]
    have hS := sortByCountDesc_perm ((counterItems (pcList entries)).filter
      (fun p => decide (mr ≤ p.2)))
    have htake : (sortByCountDesc ((counterItems (pcList entries)).filter
        (fun p => decide (mr ≤ p.2)))).take 10 =
        sortByCountDesc ((counterItems (pcList entries)).filter
          (fun p => decide (mr ≤ p.2))) := by
      apply List.take_of_length_le
      rw [hS.length_eq]
      exact hlen
    rw [htake]
    refine ⟨(p.1, p.2, firstInstructionAt entries p.1), ?_, rfl, rfl⟩
    rw [List.mem_map]
    exact ⟨p, hS.mem_iff.2 hp, rfl⟩

/-- C3, witness of `find_loops_correct` at a concrete input: PC 7 runs twice in `exW3`, two
qualifying PCs at most exist, and the report indeed contains a row for PC 7 with count 2. -/
theorem find_loops_correct_witness :
    ∃ r ∈ find_loops exW3 2, r.1 = (JVal.int 7, 2).1 ∧ r.2.1 = (JVal.int 7, 2).2 :=
  (find_loops_correct exW3 2).2.2 (by decide) (JVal.int 7, 2) (by decide)

/-- C7, counterexample: `show_histogram` of analyze_trace.py dereferences
`entry['instruction']` unconditionally, so a trace containing one record without the
`instruction` field makes the whole histogram query raise KeyError instead of skipping that
record — while the same trace with the offending record removed completes normally. -/
theorem histogram_missing_field_cex :
    show_histogram_raw [[("pc", JVal.int 0x100)], [("instruction", JVal.str "NOP")]] 20 =
      Except.error (PyError.keyErr "instruction") ∧
    (show_histogram_raw [[("instruction", JVal.str "NOP")]] 20).isOk = true := by
  constructor
  · rfl
  · rfl

/-- C7 (amended): the analyze_traces.py engines skip individual entries that miss an expected
field — removing from the trace an entry without the requested register leaves the register
tracker's result unchanged, so such entries are excluded while the query completes over the
rest — whereas the analyze_trace.py histogram requires the field on every entry: whenever any
record lacks `instruction`, the whole query raises instead of completing. -/
theorem skip_semantics_correct (reg : String) (es1 es2 : List EntryB) (e : EntryB) :
    ((e.bind (fun f => f.lookup reg)) = none →
      analyze_register_changes (es1 ++ e :: es2) reg = analyze_register_changes (es1 ++ es2) reg) ∧
    ∀ (l : List JObj) (k : Nat), (∃ f ∈ l, f.lookup "instruction" = none) →
      ∃ err, show_histogram_raw l k = Except.error err := by
  constructor
  · intro hnone
    induction es1 with
    | nil =>
      cases e with
      | none => rw [List.nil_append, List.nil_append, analyze_register_changes]
      | some f =>
        have hf : f.lookup reg = none := hnone
        rw [List.nil_append, List.nil_append, analyze_register_changes, hf]
    | cons a t ih =>
      cases a with
      | none =>
        rw [List.cons_append, List.cons_append, analyze_register_changes, ih]
        rw [analyze_register_changes]
      | some g =>
        rcases hg : g.lookup reg with _ | v
        · rw [List.cons_append, List.cons_append, analyze_register_changes, hg, ih]
          rw [analyze_register_changes, hg]
        · rw [List.cons_append, List.cons_append, analyze_register_changes, hg, ih]
          rw [analyze_register_changes, hg]
  · rintro l k ⟨f, hf, hnone⟩
    rcases h : collectMnemonics l with err | ms
    · exact ⟨err, by rw [show_histogram_raw, h]⟩
    · have := collectMnemonics_ok_instr h f hf
      rw [hnone] at this
      cases this

/-- C7, witness of `skip_semantics_correct` at concrete inputs: dropping the entry that lacks
register `a` leaves the tracker's output unchanged, and a one-record trace without
`instruction` makes the raw histogram raise. -/
theorem skip_semantics_correct_witness :
    analyze_register_changes ([some [("a", JVal.int 1), ("pc", JVal.int 2)]] ++
        (some [("b", JVal.int 9)]) :: []) "a" =
      analyze_register_changes ([some [("a", JVal.int 1), ("pc", JVal.int 2)]] ++ []) "a" ∧
    ∃ err, show_histogram_raw [[("pc", JVal.int 0x42)]] 20 = Except.error err :=
  ⟨(skip_semantics_correct "a" [some [("a", JVal.int 1), ("pc", JVal.int 2)]] []
      (some [("b", JVal.int 9)])).1 (by decide),
   (skip_semantics_correct "a" [] [] none).2 [[("pc", JVal.int 0x42)]] 20
      ⟨[("pc", JVal.int 0x42)], by decide, by decide⟩⟩

/-- C8: when the trace is nonempty, the percentages of the full frequency distribution — each
row's percentage being `count / total * 100` with `total` the full trace length — sum to exactly
100 (stated over `Rat`, i.e. up to floating rounding in the Python source); when the trace is
empty the distribution is empty and no division happens; and requesting only the top `k` rows
merely truncates the full distribution, leaving each displayed percentage computed against the
full total. -/
theorem histogram_percentages_sum (entries : List EntryA) :
    (0 < entries.length →
      ((histogramRows (entries.map (fun e => mnemonicA e.instruction))).map
        (fun p : String × Nat => ((p.2 : Rat) / (entries.length : Rat)) * 100)).sum = 100) ∧
    (entries.length = 0 →
      histogramRows (entries.map (fun e => mnemonicA e.instruction)) = []) ∧
    ∀ k, show_histogram entries k =
      ((histogramRows (entries.map (fun e => mnemonicA e.instruction))).map
        (percentRow entries.length)).take k := by
  refine ⟨?_, ?_, ?_⟩
  · intro hpos
    rw [histogramRows]
    rw [((sortByCountDesc_perm
        (counterItems (entries.map (fun e => mnemonicA e.instruction)))).map
        (fun p : String × Nat => ((p.2 : Rat) / (entries.length : Rat)) * 100)).sum_eq]
    have hpt : ∀ p : String × Nat, ((p.2 : Rat) / (entries.length : Rat)) * 100 =
        (p.2 : Rat) * (100 / (entries.length : Rat)) := fun p => by ring
    simp only [hpt]
    have hm2 : (counterItems (entries.map (fun e => mnemonicA e.instruction))).map
        (fun p : String × Nat => (p.2 : Rat) * (100 / (entries.length : Rat))) =
        ((counterItems (entries.map (fun e => mnemonicA e.instruction))).map Prod.snd).map
        (fun c : Nat => (c : Rat) * (100 / (entries.length : Rat))) := by
      rw [List.map_map]
      rfl
    rw [hm2, sum_map_cast_mul, sum_counterItems, List.length_map]
    have hne : (entries.length : Rat) ≠ 0 := Nat.cast_ne_zero.2 (by omega)
    field_simp
  · intro h0
    have he : entries = [] := List.length_eq_zero.1 h0
    subst he
    rfl
  · intro k
    rw [show_histogram, List.map_take]

/-- C8, witness of `histogram_percentages_sum` at concrete inputs: the three-entry trace with
mnemonics LD, JP, LD, and the empty trace. -/
theorem histogram_percentages_sum_witness :
    ((histogramRows (exW8.map (fun e => mnemonicA e.instruction))).map
      (fun p : String × Nat => ((p.2 : Rat) / (exW8.length : Rat)) * 100)).sum = 100 ∧
    histogramRows (([] : List EntryA).map (fun e => mnemonicA e.instruction)) = [] :=
  ⟨(histogram_percentages_sum exW8).1 (by decide),
   (histogram_percentages_sum []).2.1 rfl⟩
